import Mathlib

/-!
Verification of the Orangered-Parser command interpreter.

Shallow embedding of the two source files:
  * `index.js` (the root implementation: argument classes, `register`, `parse`)
  * `src/index.js` (the `src` implementation: `registerSingle`, `parse` with
    permission gate and camelCased keys, `deregister`, `clear`)

JavaScript values flowing through the argument pipeline are modelled by
`JSVal`; the `collections/map` registry is modelled extensionally by its
lookup function `String → Option Command`; JS machine numbers are modelled
by `Int` (all claim-relevant arithmetic is small-integer exact).
External npm collaborators that the repository only calls
(`smart-splitter`, `camelcase`, `parse-duration`) are modelled from the
spec, marked `Modelled from the spec:` below.
-/

/-- JavaScript values that flow through the argument pipeline.  A resolved
command reference (returned by the `command` argument type) is carried by
its `name` and `originalName` fields, the two fields of the record the
source ever inspects on such a value. -/
inductive JSVal where
  | undef
  | str (s : String)
  | int (n : Int)
  | bool (b : Bool)
  | cmdRef (name originalName : String)
deriving DecidableEq, Repr

/-- JS truthiness for the values of `JSVal` (`undefined`, `""`, `0`, `false`
are falsy; object references are truthy). -/
def truthy : JSVal → Bool
  | .undef => false
  | .str s => s ≠ ""
  | .int n => n ≠ 0
  | .bool b => b
  | .cmdRef _ _ => true

/-- The caller-supplied context object (`pass`/`args` in the source): an
optional permission-test capability and the host localization function.
The source also expects `send` on this object; message emission is modelled
by collecting the sent payloads (an `Option String`, since the source can
send `undefined` when localization yields nothing). -/
structure Ctx where
  testPermission : Option (String → Bool) := none
  localize : String → Option String := fun _ => none

/-- The structured error built by `new InvalidArgumentError(...)`
(index.js lines 100-116): `code` is the localization code uppercased,
`message` is the localized text (with the `argument_invalid` fallback),
possibly `undefined`. -/
structure ArgErr where
  code : String
  message : Option String
deriving DecidableEq, Repr

/-- `String.prototype.toUpperCase` on the ASCII localization codes,
implemented structurally over the character list. -/
def jsToUpperCase (s : String) : String :=
  String.mk (s.data.map Char.toUpper)

/-- `InvalidArgumentError` construction: `this.message` is the localized
message for the code if truthy, else the `argument_invalid` fallback
lookup; `this.code = localizationCode.toUpperCase()`.  The extra
parameters the source hands to `args.localize` (the descriptor, offending
value and type-name lookup) are host-side formatting and do not affect
control flow. -/
def mkErr (ctx : Ctx) (lcode : String) : ArgErr :=
  { code := jsToUpperCase lcode
    message :=
      match ctx.localize lcode with
      | some m => if m ≠ "" then some m else ctx.localize "argument_invalid"
      | none => ctx.localize "argument_invalid" }

/-- Result of a type-specific `getValue`: either a value (`JSVal.undef`
standing for the JS `undefined` "absent" answer) or an
`InvalidArgumentError`. -/
abbrev GetV := Except ArgErr JSVal

/-- The argument-type tag selected by `argTypes[arg.type]`
(index.js lines 195-284). -/
inductive ATy where
  | generic
  | string
  | user
  | subreddit
  | command
  | custom
  | duration
  | integer
deriving DecidableEq, Repr

/-- A raw argument specification object, as found in a command
specification (`arguments: [...]`).  `matches` models a host regular
expression by its `test` function; absent optional fields are `none`. -/
structure ArgSpec where
  key : String := ""
  type : String := ""
  default : JSVal := .undef
  required : Bool := false
  choices : Option (List JSVal) := none
  description : Option String := none
  minLength : Option Nat := none
  maxLength : Option Nat := none
  matchesTest : Option (String → Bool) := none  -- source field name: matches (reserved in Lean)
  min : Option Int := none
  max : Option Int := none
  allowAlias : Option Bool := none
  custom : Option String → Ctx → JSVal := fun _ _ => JSVal.undef

/-- JS `a || b` on an optional boolean field (used for
`argument.allowAlias || true`, index.js line 201): a truthy left operand
is returned, otherwise the right operand. -/
def jsOrB (a : Option Bool) (b : Bool) : Bool :=
  match a with
  | some x => if x then x else b
  | none => b

/-- `argTypes[arg.type] ? ... : argTypes.string` dispatch
(index.js lines 302-306): unknown type tags fall back to `string`. -/
def tyOf : String → ATy
  | "command" => .command
  | "custom" => .custom
  | "duration" => .duration
  | "generic" => .generic
  | "integer" => .integer
  | "string" => .string
  | "subreddit" => .subreddit
  | "user" => .user
  | _ => .string

/-- A constructed argument descriptor (an `Argument` instance).  The
per-subclass fields are flattened into one record: `minL`/`maxL`/`matches`
are the `StringArgument` constructor fields
(`argument.minLength || 0`, `argument.maxLength || Infinity`,
`new RegExp(argument.matches)` - an absent pattern matches everything),
`minI`/`maxI` the integer ones (`argument.min || -Infinity`,
`argument.max || Infinity`, `none` standing for the infinite bound; note
a configured bound of `0` is falsy in JS and also yields the infinity),
`allowAlias` the command-type one, and `custom` the user-supplied
function (whose call result the source discards).  A descriptor only
reads the fields its own type set, so the flattening is observationally
faithful. -/
structure ArgDescr where
  ty : ATy
  key : String
  default : JSVal
  required : Bool
  choices : Option (List JSVal)
  minL : Nat := 0
  maxL : Option Nat := none
  matchesTest : String → Bool := fun _ => true  -- source field name: matches (reserved in Lean)
  minI : Option Int := none
  maxI : Option Int := none
  allowAlias : Bool := true
  custom : Option String → Ctx → JSVal := fun _ _ => JSVal.undef

/-- Constructing an `Argument` (and subclass) instance from a raw
specification (index.js lines 21-59, 118-128, 196-202, 253-261). -/
def mkArg (s : ArgSpec) : ArgDescr :=
  { ty := tyOf s.type
    key := s.key
    default := s.default
    required := s.required
    choices := s.choices
    minL := s.minLength.getD 0
    maxL := match s.maxLength with
            | some m => if m = 0 then none else some m
            | none => none
    matchesTest := s.matchesTest.getD (fun _ => true)
    minI := match s.min with
            | some m => if m = 0 then none else some m
            | none => none
    maxI := match s.max with
            | some m => if m = 0 then none else some m
            | none => none
    allowAlias := jsOrB s.allowAlias true
    custom := s.custom }

/-- `str.length >= this.max` with `Infinity` as the absent bound
(index.js line 138). -/
def lenGE (n : Nat) : Option Nat → Bool
  | some m => n ≥ m
  | none => false

/-- `int >= this.max` with `Infinity` as the absent bound
(index.js line 272). -/
def intGE (i : Int) : Option Int → Bool
  | some m => i ≥ m
  | none => false

/-- `int <= this.min` with `-Infinity` as the absent bound
(index.js line 274). -/
def intLE (i : Int) : Option Int → Bool
  | some m => i ≤ m
  | none => false

/-- The raw token as the JS value handed to `getValue` (`undefined` when
the positional token is missing). -/
def jsOfToken : Option String → JSVal
  | none => .undef
  | some s => .str s

/-- JS whitespace (the `\s` class and `trim`), approximated by Lean's
ASCII whitespace predicate; all claim-relevant inputs are ASCII. -/
def isJsWS (c : Char) : Bool := c.isWhitespace

/-- JS `\w` word character: `[A-Za-z0-9_]`. -/
def isWordChar (c : Char) : Bool := c.isAlphanum || c = '_'

/-- `Error.prototype.toString` on an `InvalidArgumentError`: `"Error"`,
or `"Error: " ++ message` when the message is a nonempty string. -/
def errToString (e : ArgErr) : String :=
  match e.message with
  | some m => if m = "" then "Error" else "Error: " ++ m
  | none => "Error"

/-- String coercion applied by `RegExp.exec` to its argument
(index.js lines 157, 179): `undefined` stringifies to `"undefined"`,
strings are unchanged, an error object stringifies via
`Error.prototype.toString`. -/
def jsToString : GetV → String
  | .ok .undef => "undefined"
  | .ok (.str s) => s
  | .ok (.int n) => toString n
  | .ok (.bool b) => if b then "true" else "false"
  | .ok (.cmdRef _ _) => "[object Object]"
  | .error e => errToString e

/-- Group 2 of `/(u\/)?(.*)/i.exec(s)` (and of the `r/` variant): the
input with one leading case-insensitive two-character tag such as `"u/"`
stripped when present. -/
def stripTagCI (tag : Char) (s : String) : String :=
  match s.data with
  | c :: '/' :: rest => if c.toLower = tag then String.mk rest else s
  | _ => s

/-- `/^[\w-]+$/.test(s)` (index.js line 159). -/
def userNameOk (s : String) : Bool :=
  s.length > 0 && s.data.all (fun c => isWordChar c || c = '-')

/-- `/^[A-Za-z0-9]\w+$/.test(s)` (index.js line 181). -/
def subredditNameOk (s : String) : Bool :=
  match s.data with
  | c :: rest => c.isAlphanum && rest.length > 0 && rest.all isWordChar
  | [] => false

/-- JS `parseInt(value)` restricted to its exact-integer behaviour:
leading whitespace skipped, one optional sign, then a maximal prefix of
decimal digits (or hexadecimal after a `0x`/`0X` tag); no digits parse to
`NaN`, modelled as `none`.  Floating-point rounding of astronomically
long digit strings is not modelled; all claim-relevant inputs are small. -/
def parseIntJS (s : String) : Option Int :=
  let cs := s.data.dropWhile isJsWS
  let sgn : Int := match cs with
    | '-' :: _ => -1
    | _ => 1
  let cs2 := match cs with
    | '-' :: r => r
    | '+' :: r => r
    | _ => cs
  let hex := match cs2 with
    | '0' :: c :: _ => c = 'x' || c = 'X'
    | _ => false
  if hex then
    let digits := (cs2.drop 2).takeWhile (fun c => c.isDigit || (c.toLower ≥ 'a' && c.toLower ≤ 'f'))
    if digits = [] then none
    else some (sgn * (digits.foldl (fun acc c =>
      acc * 16 + (if c.isDigit then (c.toNat - '0'.toNat : Int) else (c.toLower.toNat - 'a'.toNat + 10))) 0))
  else
    let digits := cs2.takeWhile Char.isDigit
    if digits = [] then none
    else some (sgn * (digits.foldl (fun acc c => acc * 10 + (c.toNat - '0'.toNat : Int)) 0))

/-- Modelled from the spec: the external `parse-duration` unit table with
the repository's extra units (index.js lines 9-12: decade = 10 years,
century = 10 decades, millennium = 10 centuries), millisecond values. -/
def durUnitMs : String → Option Int
  | "ms" => some 1
  | "s" => some 1000
  | "sec" => some 1000
  | "m" => some 60000
  | "min" => some 60000
  | "h" => some 3600000
  | "hour" => some 3600000
  | "d" => some 86400000
  | "day" => some 86400000
  | "w" => some 604800000
  | "week" => some 604800000
  | "month" => some 2629800000
  | "year" => some 31557600000
  | "yr" => some 31557600000
  | "decade" => some 315576000000
  | "dec" => some 315576000000
  | "century" => some 3155760000000
  | "cen" => some 3155760000000
  | "millennium" => some 31557600000000
  | "mil" => some 31557600000000
  | _ => none

/-- Modelled from the spec: the external `dur` function of
`parse-duration` (a human-readable duration expression to milliseconds;
`none` models the thrown error the source catches).  Parses one
`<integer> <unit>` expression; no claim depends on richer expressions. -/
def durModel (s : String) : Option Int :=
  let cs := s.data.dropWhile isJsWS
  let digits := cs.takeWhile Char.isDigit
  if digits = [] then none
  else
    let n : Int := digits.foldl (fun acc c => acc * 10 + (c.toNat - '0'.toNat : Int)) 0
    let unit := String.mk ((cs.drop digits.length).dropWhile isJsWS |>.takeWhile (fun c => ¬ isJsWS c))
    if unit = "" then some n
    else match durUnitMs unit with
      | some u => some (n * u)
      | none => none

/-- `StringArgument.getValue` (index.js lines 130-145): absent token stays
absent; otherwise test the pattern, then the exclusive
`length >= max` / `length <= min` bounds. -/
def stringGetValue (a : ArgDescr) (value : Option String) (ctx : Ctx) : GetV :=
  match value with
  | none => .ok .undef
  | some v =>
    let str := v
    if !(a.matchesTest str) then .error (mkErr ctx "string_argument_regexp_fail")
    else if lenGE str.length a.maxL then .error (mkErr ctx "string_argument_too_long")
    else if str.length ≤ a.minL then .error (mkErr ctx "string_argument_too_short")
    else .ok (.str str)

/-- `UserArgument.getValue` (index.js lines 153-170): the super result is
coerced to a string by `RegExp.exec` (so an absent token becomes the
string `"undefined"`), an optional case-insensitive `u/` tag is stripped,
and the remainder is validated against `[\w-]+` with length 3..20. -/
def userGetValue (a : ArgDescr) (value : Option String) (ctx : Ctx) : GetV :=
  let string := jsToString (stringGetValue a value ctx)
  let noU := stripTagCI 'u' string
  if userNameOk noU then
    if noU.length < 3 then .error (mkErr ctx "user_argument_too_short")
    else if noU.length > 20 then .error (mkErr ctx "user_argument_too_long")
    else .ok (.str noU)
  else .error (mkErr ctx "user_argument_invalid")

/-- `SubredditArgument.getValue` (index.js lines 177-192): like the user
type with an `r/` tag and the `[A-Za-z0-9]\w+` shape. -/
def subredditGetValue (a : ArgDescr) (value : Option String) (ctx : Ctx) : GetV :=
  let string := jsToString (stringGetValue a value ctx)
  let noR := stripTagCI 'r' string
  if subredditNameOk noR then
    if noR.length < 3 then .error (mkErr ctx "subreddit_argument_too_short")
    else if noR.length > 20 then .error (mkErr ctx "subreddit_argument_too_long")
    else .ok (.str noR)
  else .error (mkErr ctx "subreddit_argument_invalid")

/-- `argTypes.integer.getValue` (index.js lines 263-279): absent stays
absent; `parseInt`, then the exclusive `>= max` / `<= min` bounds. -/
def integerGetValue (a : ArgDescr) (value : Option String) (ctx : Ctx) : GetV :=
  match value with
  | none => .ok .undef
  | some v =>
    match parseIntJS v with
    | none => .error (mkErr ctx "integer_argument_invalid")
    | some int =>
      if intGE int a.maxI then .error (mkErr ctx "integer_argument_too_high")
      else if intLE int a.minI then .error (mkErr ctx "integer_argument_too_low")
      else .ok (.int int)

/-- `argTypes.duration.getValue` (index.js lines 240-250): absent stays
absent; otherwise the external `dur` call, its thrown error mapped to an
`InvalidArgumentError`. -/
def durationGetValue (value : Option String) (ctx : Ctx) : GetV :=
  match value with
  | none => .ok .undef
  | some v =>
    match durModel v with
    | some n => .ok (.int n)
    | none => .error (mkErr ctx "duration_argument_invalid")

/-- The assembled argument object of one `parse` run: the caller-supplied
context fields plus the resolved argument values keyed by name. -/
structure ArgsObj where
  ctx : Ctx
  vals : List (String × JSVal)

/-- `cmdSource.check`: absent, a single predicate, or an array of
predicates over the assembled argument object. -/
inductive Check where
  | nil
  | single (p : ArgsObj → Bool)
  | many (ps : List (ArgsObj → Bool))

/-- A registered `Command` record (index.js lines 290-333; the missing
`src/command.js` adds the `permissionless` and `category` fields the
`src` parse reads, modelled from the spec's Command Record section). -/
structure Command where
  name : String
  originalName : String
  description : String := ""
  longDescription : String := ""
  arguments : List ArgDescr := []
  aliases : List String := []
  check : Check := .nil
  hasHandler : Bool := false
  permissionless : Bool := false
  category : Option String := none

/-- The `collections/map` command registry, modelled extensionally by its
lookup function (`get` returns `undefined` for a missing key). -/
abbrev Registry := String → Option Command

/-- The empty registry (`new Map()`, and the result of `clear()`). -/
def regEmpty : Registry := fun _ => none

/-- `Map.prototype.set`: file (or overwrite) one key. -/
def regSet (r : Registry) (k : String) (c : Command) : Registry :=
  fun k' => if k' = k then some c else r k'

/-- `Map.prototype.filter` over the records (`src/index.js` lines 169,
171): keep only the entries whose record satisfies the callback. -/
def regFilter (p : Command → Bool) (r : Registry) : Registry :=
  fun k => match r k with
  | some c => if p c then some c else none
  | none => none

/-- `argTypes.command.getValue` (index.js lines 204-219): absent stays
absent; otherwise resolve the token in the registry, failing when the key
is missing, and — when `allowAlias` is false — when the resolved record
is an alias filing (`name !== originalName`). -/
def commandGetValue (a : ArgDescr) (value : Option String) (ctx : Ctx) (reg : Registry) : GetV :=
  match value with
  | none => .ok .undef
  | some v =>
    match reg v with
    | some cmd =>
      if !a.allowAlias && cmd.name ≠ cmd.originalName then
        .error (mkErr ctx "command_argument_not_original")
      else
        .ok (.cmdRef cmd.name cmd.originalName)
    | none => .error (mkErr ctx "command_argument_nonexistent")

/-- The polymorphic `getValue` dispatch (`this.getValue(value, args)`).
The `generic` base class returns the raw value unchanged
(index.js lines 61-63); the `custom` variant calls the user-supplied
function but has no `return` statement, so its result is discarded and
the call yields `undefined` (index.js lines 229-231). -/
def getValue (a : ArgDescr) (value : Option String) (ctx : Ctx) (reg : Registry) : GetV :=
  match a.ty with
  | .generic => .ok (jsOfToken value)
  | .string => stringGetValue a value ctx
  | .user => userGetValue a value ctx
  | .subreddit => subredditGetValue a value ctx
  | .command => commandGetValue a value ctx reg
  | .custom => .ok .undef
  | .duration => durationGetValue value ctx
  | .integer => integerGetValue a value ctx

/-- `val === undefined` on a `getValue` result. -/
def isUndef : GetV → Bool
  | .ok .undef => true
  | _ => false

/-- `defaulter(val, defaultTo)` (index.js lines 14-19): with a falsy
default the value passes through; otherwise the default replaces an
`undefined` or `Error` value. -/
def defaulter (val : GetV) (defaultTo : JSVal) : GetV :=
  if !(truthy defaultTo) then val
  else match val with
  | .ok .undef => .ok defaultTo
  | .error _ => .ok defaultTo
  | .ok v => .ok v

/-- `this.choices.includes(defaulted)`: SameValueZero membership.  A
fresh `InvalidArgumentError` object is never a member of the configured
choices array (reference equality on a freshly constructed object). -/
def choicesInclude (cs : List JSVal) : GetV → Bool
  | .ok v => cs.contains v
  | .error _ => false

/-- `Argument.getWithDefault` (index.js lines 65-79): the
required / default / choices resolution over the type-specific result. -/
def getWithDefault (a : ArgDescr) (value : Option String) (ctx : Ctx) (reg : Registry) : GetV :=
  let val := getValue a value ctx reg
  if a.required && isUndef val then .error (mkErr ctx "argument_required")
  else
    let defaulted := defaulter val a.default
    match a.choices with
    | none => defaulted
    | some cs =>
      if choicesInclude cs defaulted then defaulted
      else .error (mkErr ctx "argument_unavailable_choice")

/-- The per-argument outcome of `Argument.get` (index.js lines 81-94):
`success` flag, the value filed into the argument object (`undefined` on
failure, the missing-property read), and the message sent via
`args.send(val.message)`. -/
structure GetOut where
  success : Bool
  value : JSVal
  msgs : List (Option String)

/-- `Argument.get(value, args)` (index.js lines 81-94). -/
def argGet (a : ArgDescr) (value : Option String) (ctx : Ctx) (reg : Registry) : GetOut :=
  match getWithDefault a value ctx reg with
  | .error e => ⟨false, .undef, [e.message]⟩
  | .ok v => ⟨true, v, []⟩

/-- The uppercase `code` of a failed `getValue`/`getWithDefault` result,
`none` on success. -/
def errCode : GetV → Option String
  | .error e => some e.code
  | .ok _ => none

/-- A raw command specification object as handed to `register`
(`name`/`command`, optional alias list, argument specifications, gating
predicates, handler).  `name`, `originalName` and `aliases` are the
fields `registerSingle` mutates in place; `hasHandler` models the
presence of the `handler` function. -/
structure CmdSpec where
  name : Option String := none
  command : Option String := none
  originalName : Option String := none
  aliases : Option (List String) := none
  description : Option String := none
  describe : Option String := none
  longDescription : Option String := none
  argSpecs : List ArgSpec := []
  check : Check := .nil
  hasHandler : Bool := false
  permissionless : Bool := false
  category : Option String := none

/-- JS `a || b` over optional strings with `""` falsy. -/
def jsOrOptStr (a b : Option String) : Option String :=
  match a with
  | some s => if s ≠ "" then some s else b
  | none => b

/-- `findName(obj)` = `obj.name || obj.command` (index.js lines 286-288),
as the raw JS value (possibly a falsy `""`). -/
def findNameRaw (c : CmdSpec) : Option String :=
  jsOrOptStr c.name c.command

/-- The name `register` derives, `none` when `findName` is falsy and the
registration throws (`if (!name) throw`). -/
def findName (c : CmdSpec) : Option String :=
  match findNameRaw c with
  | some s => if s = "" then none else some s
  | none => none

/-- The `Command` constructor (index.js lines 290-317; `permissionless`
and `category` carried through for the `src` parse, per the spec's
Command Record section since `src/command.js` is not in the snapshot). -/
def Command.ofSpec (s : CmdSpec) : Command :=
  let name := (findNameRaw s).getD ""
  { name := name
    originalName := match s.originalName with
                    | some o => if o ≠ "" then o else name
                    | none => name
    description := (jsOrOptStr s.description s.describe).getD ""
    longDescription := match s.longDescription with
                       | some l => if l ≠ "" then l else (jsOrOptStr s.description s.describe).getD ""
                       | none => (jsOrOptStr s.description s.describe).getD ""
    arguments := s.argSpecs.map mkArg
    aliases := s.aliases.getD []
    check := s.check
    hasHandler := s.hasHandler
    permissionless := s.permissionless
    category := s.category }

/-- One iteration of the `alias.forEach(aname => ...)` body
(src/index.js lines 41-50, identically index.js lines 350-359): overwrite
the spec's `name`, `originalName` and `aliases` fields in place. -/
def stepSpec (aliasL : List String) (name : String) (s : CmdSpec) (aname : String) : CmdSpec :=
  { s with name := some aname
           originalName := some name
           aliases := some (aliasL.filter (fun name2 => name2 != aname)) }

/-- The `alias.forEach` loop: thread the mutated spec, filing
`new Command(cmd)` under each alias name. -/
def regLoop (aliasL : List String) (name : String) :
    List String → Registry → CmdSpec → Registry × CmdSpec
  | [], r, s => (r, s)
  | aname :: rest, r, s =>
    let s' := stepSpec aliasL name s aname
    regLoop aliasL name rest (regSet r aname (Command.ofSpec s')) s'

/-- `CommandError` (src/errors/command.js, observed through
`registerSingle`): message and code. -/
structure CommandError where
  message : String
  code : String
deriving DecidableEq, Repr

/-- The outcome of `registerSingle`: the updated registry, the final
state of the caller's (mutated) specification object, and the final
contents of the array object that `cmd.aliases` referenced on entry
(`alias` aliases it, and `alias.push(name)` mutates it). -/
structure RegOut where
  reg : Registry
  spec : CmdSpec
  aliasArr : List String

/-- `registerSingle(cmd)` (src/index.js lines 33-54; the root
`register`, index.js lines 340-363, performs the same steps). -/
def registerSingle (reg : Registry) (cmd : CmdSpec) : Except CommandError RegOut :=
  match findName cmd with
  | none => .error ⟨"Commands must have names.", "MISSING_COMMAND_NAME"⟩
  | some name =>
    let aliasL := cmd.aliases.getD [] ++ [name]  -- const alias = cmd.aliases or new array; alias.push(name)
    let res := regLoop aliasL name aliasL reg cmd
    .ok ⟨res.1, res.2, aliasL⟩

/-- The registry after a `registerSingle` call (unchanged when the call
threw the missing-name configuration error). -/
def regAfter (reg : Registry) (cmd : CmdSpec) : Registry :=
  match registerSingle reg cmd with
  | .ok o => o.reg
  | .error _ => reg

/-- The caller's specification object after a `registerSingle` call. -/
def specAfter (reg : Registry) (cmd : CmdSpec) : CmdSpec :=
  match registerSingle reg cmd with
  | .ok o => o.spec
  | .error _ => cmd

/-- The caller's aliases array contents after a `registerSingle` call. -/
def aliasArrAfter (reg : Registry) (cmd : CmdSpec) : List String :=
  match registerSingle reg cmd with
  | .ok o => o.aliasArr
  | .error _ => cmd.aliases.getD []

/-- `deregister(name, includeAlternatives)` (src/index.js lines 167-174):
filter the registry by `originalName` (default) or exact `name`. -/
def deregister (r : Registry) (name : String) (includeAlternatives : Bool) : Registry :=
  if includeAlternatives then regFilter (fun command => command.originalName != name) r
  else regFilter (fun command => command.name != name) r

/-- `clear()` (src/index.js lines 156-158). -/
def regClear (_ : Registry) : Registry := regEmpty

/-- JS `String.prototype.trim` over the character list. -/
def jsTrim (cs : List Char) : List Char :=
  ((cs.dropWhile isJsWS).reverse.dropWhile isJsWS).reverse

/-- `cmd.includes(" ") ? cmd.indexOf(" ") : cmd.length`
(src/index.js line 97). -/
def jsFirstSpace (cs : List Char) : Nat :=
  match cs.findIdx? (fun c => c = ' ') with
  | some i => i
  | none => cs.length

/-- The command token of the `src` parse: `cmd.substr(0, firstSpace)` of
the trimmed input (src/index.js lines 96-98). -/
def srcCmdTok (command : String) : String :=
  let cmd := jsTrim command.data
  String.mk (cmd.take (jsFirstSpace cmd))

/-- The argument remainder of the `src` parse:
`cmd.substr(firstSpace + 1)` (empty when there is no remainder). -/
def srcRest (command : String) : String :=
  let cmd := jsTrim command.data
  String.mk (cmd.drop (jsFirstSpace cmd + 1))

/-- Modelled from the spec: the whitespace-and-double-quote tokenizer of
the external `smart-splitter` (spec 4.3): a quoted span, including its
quotes, is one token; unquoted runs are split on whitespace.  Fuel-driven
scan; the fuel supplied always exceeds the character count. -/
def qTokens : Nat → List Char → List (List Char)
  | 0, _ => []
  | _, [] => []
  | fuel + 1, c :: cs =>
    if isJsWS c then qTokens fuel cs
    else if c = '"' then
      let inside := cs.takeWhile (fun ch => ch ≠ '"')
      match cs.drop inside.length with
      | _ :: rest2 => ('"' :: (inside ++ ['"'])) :: qTokens fuel rest2
      | [] => [('"' :: inside)]
    else
      let run := (c :: cs).takeWhile (fun ch => ¬ isJsWS ch)
      run :: qTokens fuel ((c :: cs).drop run.length)

/-- Modelled from the spec: `split(text, n)` of the external
`smart-splitter` (spec 4.3): at most `n` tokens, the final token
absorbing any remaining unsplit text. -/
def splitModel (s : String) (n : Nat) : List String :=
  let ts := (qTokens (s.length + 1) s.data).map String.mk
  if ts.length ≤ n then ts
  else ts.take (n - 1) ++ [String.intercalate " " (ts.drop (n - 1))]

/-- Modelled from the spec: the external `camelcase` package used for the
secondary case-converted argument key (spec 4.5): split on `-`, `_` and
space, lowercase the first word, capitalize the rest. -/
def camelCase (s : String) : String :=
  let segs := (s.data.splitOnP (fun c => c = '-' || c = '_' || c = ' ')).filter (fun l => l ≠ [])
  match segs with
  | [] => ""
  | first :: rest =>
    String.mk (first.map Char.toLower) ++
      String.join (rest.map (fun seg =>
        match seg with
        | c :: cs => String.mk (c.toUpper :: cs.map Char.toLower)
        | [] => ""))

/-- Property write on the assembled argument object
(`argsObj[key] = value`): overwrite or append. -/
def objSet (l : List (String × JSVal)) (k : String) (v : JSVal) : List (String × JSVal) :=
  match l with
  | [] => [(k, v)]
  | (k', v') :: rest => if k' = k then (k, v) :: rest else (k', v') :: objSet rest k v

/-- Property read on the assembled argument object. -/
def objGet (l : List (String × JSVal)) (k : String) : Option JSVal :=
  match l.find? (fun p => p.1 = k) with
  | some p => some p.2
  | none => none

/-- The permission string of the `src` parse (src/index.js line 109):
`"commands." + (category ? category + "." : "") + originalName`. -/
def permString (c : Command) : String :=
  "commands." ++
    (match c.category with
     | some cg => if cg ≠ "" then cg ++ "." else ""
     | none => "") ++ c.originalName

/-- The permission gate outcome (src/index.js lines 108-116): the run
starts failed exactly when a permission test was supplied, the command is
not permissionless, and the test rejects the permission string. -/
def permOK (pass : Ctx) (c : Command) : Bool :=
  match pass.testPermission with
  | some test => c.permissionless || test (permString c)
  | none => true

/-- The `no_permission` message the gate sends on rejection (the source
guards the send on the localize and send capabilities being present,
which the modelled context always carries). -/
def permMsgs (pass : Ctx) (c : Command) : List (Option String) :=
  match pass.testPermission with
  | some test =>
    if !c.permissionless && !test (permString c) then [pass.localize "no_permission"]
    else []
  | none => []

/-- The predicate gate (src/index.js lines 134-141, index.js 409-416):
an array of checks must all accept, a single check must accept, an absent
check always passes. -/
def checkOK : Check → ArgsObj → Bool
  | .nil, _ => true
  | .single p, o => p o
  | .many ps, o => ps.all (fun p => p o)

/-- The `cmdSource.arguments.forEach((argument, index) => ...)` loop of
the `src` parse (src/index.js lines 118-131): validate each positional
token, file the value under the camelCased and the literal key, and fold
the per-argument successes into the run flag. -/
def argsLoop (pass : Ctx) (reg : Registry) (args : List String) :
    List (Nat × ArgDescr) → List (String × JSVal) → Bool → List (Option String) →
    List (String × JSVal) × Bool × List (Option String)
  | [], vals, success, msgs => (vals, success, msgs)
  | (index, argument) :: rest, vals, success, msgs =>
    let g := argGet argument (args.get? index) pass reg
    argsLoop pass reg args rest
      (objSet (objSet vals (camelCase argument.key) g.value) argument.key g.value)
      (success && g.success) (msgs ++ g.msgs)

/-- The observable outcome of one `parse` call: the returned value
(`none` models the `undefined` return), whether the handler ran, and the
messages sent. -/
structure ParseOut where
  result : Option ArgsObj
  ran : Bool
  msgs : List (Option String)

/-- `parse(command, pass)` of `src/index.js` (lines 95-149): tokenize,
resolve, permission gate, per-argument validation, predicate gate,
handler invocation; the assembled object is returned only when the run
flag survived the gate and every validation. -/
def srcParse (reg : Registry) (command : String) (pass : Ctx) : ParseOut :=
  let cmdStr := srcCmdTok command
  if cmdStr = "" then ⟨none, false, []⟩
  else match reg cmdStr with
  | none => ⟨none, false, []⟩
  | some cmdSource =>
    let args := splitModel (srcRest command) cmdSource.arguments.length
    let t := argsLoop pass reg args cmdSource.arguments.enum []
               (permOK pass cmdSource) (permMsgs pass cmdSource)
    let argsObj : ArgsObj := ⟨pass, t.1⟩
    if t.2.1 then
      ⟨some argsObj, checkOK cmdSource.check argsObj && cmdSource.hasHandler, t.2.2⟩
    else ⟨none, false, t.2.2⟩

/-- The condition under which the `src` parse returns an object: command
token nonempty, lookup successful, permission gate passed and every
argument validation successful. -/
def srcParseSucceeds (reg : Registry) (command : String) (pass : Ctx) : Bool :=
  let cmdStr := srcCmdTok command
  if cmdStr = "" then false
  else match reg cmdStr with
  | none => false
  | some cmdSource =>
    permOK pass cmdSource &&
      cmdSource.arguments.enum.all (fun p =>
        (argGet p.2 ((splitModel (srcRest command) cmdSource.arguments.length).get? p.1) pass reg).success)

/-- One unit of the root tokenizer regular expression
`(?:[^\s"]+|"[^"]*")+` (index.js line 390): a quoted span (requiring its
closing quote) or a maximal run of non-space non-quote characters. -/
def rootUnit : List Char → Option (List Char × List Char)
  | [] => none
  | c :: cs =>
    if c = '"' then
      let inside := cs.takeWhile (fun ch => ch ≠ '"')
      match cs.drop inside.length with
      | _ :: rest2 => some ('"' :: (inside ++ ['"']), rest2)
      | [] => none
    else if ¬ isJsWS c then
      let run := (c :: cs).takeWhile (fun ch => ¬ isJsWS ch && ch ≠ '"')
      some (run, (c :: cs).drop run.length)
    else none

/-- The `+` of the root tokenizer pattern: greedily concatenate adjacent
units into one token. -/
def rootUnits : Nat → List Char → List Char × List Char
  | 0, l => ([], l)
  | fuel + 1, l =>
    match rootUnit l with
    | some (u, rest) =>
      let t := rootUnits fuel rest
      (u ++ t.1, t.2)
    | none => ([], l)

/-- The global regex scan: successive matches of the token pattern, a
position that cannot start a match being skipped. -/
def rootTokensGo : Nat → List Char → List String
  | 0, _ => []
  | _, [] => []
  | fuel + 1, c :: cs =>
    match rootUnit (c :: cs) with
    | some _ =>
      let t := rootUnits (fuel + 1) (c :: cs)
      String.mk t.1 :: rootTokensGo fuel t.2
    | none => rootTokensGo fuel cs

/-- `cmd.match(/(?:[^\s"]+|"[^"]*")+/g)` (index.js line 390): the list of
matched tokens, `none` modelling the `null` the method returns when there
is no match at all. -/
def rootMatch (cs : List Char) : Option (List String) :=
  match rootTokensGo (cs.length + 1) cs with
  | [] => none
  | ts => some ts

/-- The `cmdSource.arguments.forEach` loop of the root parse
(index.js lines 400-406): like the `src` loop but filing only the literal
key. -/
def rootArgsLoop (pass : Ctx) (reg : Registry) (args : List String) :
    List (Nat × ArgDescr) → List (String × JSVal) → Bool → List (Option String) →
    List (String × JSVal) × Bool × List (Option String)
  | [], vals, success, msgs => (vals, success, msgs)
  | (index, argument) :: rest, vals, success, msgs =>
    let g := argGet argument (args.get? index) pass reg
    rootArgsLoop pass reg args rest
      (objSet vals argument.key g.value)
      (success && g.success) (msgs ++ g.msgs)

/-- `parse(command, pass)` of the root `index.js` (lines 388-424).  When
`match` returns `null` the very next line reads `parts.length`, a
`TypeError` that unwinds the call; that crash is the `Except.error`
case. -/
def rootParse (reg : Registry) (command : String) (pass : Ctx) : Except Unit ParseOut :=
  let cmd := jsTrim command.data
  match rootMatch cmd with
  | none => .error ()
  | some parts =>
    match parts with
    | [] => .ok ⟨none, false, []⟩
    | p0 :: args =>
      match reg p0 with
      | none => .ok ⟨none, false, []⟩
      | some cmdSource =>
        let t := rootArgsLoop pass reg args cmdSource.arguments.enum [] true []
        let argsObj : ArgsObj := ⟨pass, t.1⟩
        if t.2.1 then
          .ok ⟨some argsObj, checkOK cmdSource.check argsObj && cmdSource.hasHandler, t.2.2⟩
        else .ok ⟨none, false, t.2.2⟩

/-- Overwriting the three mutated fields twice collapses to the second
write (the in-place mutation of the shared specification object). -/
theorem stepSpec_collapse (aliasL : List String) (name : String) (s : CmdSpec) (b a : String) :
    stepSpec aliasL name (stepSpec aliasL name s b) a = stepSpec aliasL name s a := rfl

/-- Lookup in the registry produced by the `alias.forEach` loop: a key in
the processed list is filed as the command built from the mutated spec;
any other key is untouched. -/
theorem regLoop_get (aliasL : List String) (name : String) (cmd : CmdSpec) :
    ∀ (l : List String) (r : Registry) (s : CmdSpec),
      (∀ a, stepSpec aliasL name s a = stepSpec aliasL name cmd a) →
      ∀ k, (regLoop aliasL name l r s).1 k =
        if k ∈ l then some (Command.ofSpec (stepSpec aliasL name cmd k)) else r k := by
  intro l
  induction l with
  | nil => intro r s _ k; simp [regLoop]
  | cons a rest ih =>
    intro r s h k
    have h' : ∀ x, stepSpec aliasL name (stepSpec aliasL name s a) x = stepSpec aliasL name cmd x :=
      fun x => (stepSpec_collapse aliasL name s a x).trans (h x)
    show (regLoop aliasL name rest (regSet r a (Command.ofSpec (stepSpec aliasL name s a)))
            (stepSpec aliasL name s a)).1 k = _
    rw [ih _ _ h']
    by_cases hmem : k ∈ rest
    · simp [hmem]
    · by_cases hk : k = a
      · subst hk
        simp [hmem, regSet, h k]
      · simp [hmem, hk, regSet]

/-- The spec object state after the loop: the final iteration (the last
element of the processed list) wins. -/
theorem regLoop_spec_last (aliasL : List String) (name : String) :
    ∀ (l : List String) (a : String) (r : Registry) (s : CmdSpec),
      (regLoop aliasL name (l ++ [a]) r s).2 = stepSpec aliasL name s a := by
  intro l
  induction l with
  | nil => intro a r s; rfl
  | cons b rest ih =>
    intro a r s
    show (regLoop aliasL name (rest ++ [a]) _ (stepSpec aliasL name s b)).2 = _
    rw [ih a _ (stepSpec aliasL name s b)]
    exact stepSpec_collapse aliasL name s b a

/-- A name accepted by `register`'s falsy check is nonempty. -/
theorem findName_ne (cmd : CmdSpec) (n : String) (h : findName cmd = some n) : n ≠ "" := by
  unfold findName at h
  cases hr : findNameRaw cmd with
  | none => rw [hr] at h; exact absurd h (by simp)
  | some s =>
    rw [hr] at h
    by_cases hs : s = ""
    · simp [hs] at h
    · simp [hs] at h; subst h; exact hs

/-- The record filed for key `k` carries `name = k` (when `k` is a real
name) and `originalName` = the canonical name. -/
theorem ofSpec_step_name (aliasL : List String) (name : String) (cmd : CmdSpec) (k : String)
    (hk : k ≠ "") : (Command.ofSpec (stepSpec aliasL name cmd k)).name = k := by
  simp [Command.ofSpec, stepSpec, findNameRaw, jsOrOptStr, hk]

/-- The record filed during registration carries the canonical name as
`originalName`. -/
theorem ofSpec_step_originalName (aliasL : List String) (name : String) (cmd : CmdSpec)
    (k : String) (hn : name ≠ "") :
    (Command.ofSpec (stepSpec aliasL name cmd k)).originalName = name := by
  simp [Command.ofSpec, stepSpec, hn]

/-- The registry invariant of the spec's Command Registry section: every
filed key yields a record whose `name` equals that key. -/
def RegNameInv (r : Registry) : Prop := ∀ k c, r k = some c → c.name = k

/-- The success flag of the argument loop is the incoming flag conjoined
with the success of every per-argument validation. -/
theorem argsLoop_success (pass : Ctx) (reg : Registry) (args : List String) :
    ∀ (l : List (Nat × ArgDescr)) (vals : List (String × JSVal)) (succ : Bool)
      (msgs : List (Option String)),
      (argsLoop pass reg args l vals succ msgs).2.1 =
        (succ && l.all (fun p => (argGet p.2 (args.get? p.1) pass reg).success)) := by
  intro l
  induction l with
  | nil => intro vals succ msgs; simp [argsLoop]
  | cons p rest ih =>
    intro vals succ msgs
    obtain ⟨index, argument⟩ := p
    show (argsLoop pass reg args rest _ _ _).2.1 = _
    rw [ih]
    simp [Bool.and_assoc]

/-- A bare context: no permission test, host localization resolving no
code. -/
def ctx0 : Ctx := {}

/-- A specification with canonical name `"a"` and one alias `"b"`. -/
def demoSpec3 : CmdSpec := { name := some "a", aliases := some ["b"] }

/-- The registry after registering `demoSpec3` into an empty registry. -/
def regAB : Registry := regAfter regEmpty demoSpec3

/-- A command `"c"` with one required generic argument `x`. -/
def specGReq : CmdSpec :=
  { name := some "c", argSpecs := [{ key := "x", type := "generic", required := true }],
    hasHandler := true }

/-- The registry holding only `specGReq`. -/
def regG : Registry := regAfter regEmpty specGReq

/-- A command `"c"` with one required user-type argument `u`. -/
def specUReq : CmdSpec :=
  { name := some "c", argSpecs := [{ key := "u", type := "user", required := true }],
    hasHandler := true }

/-- The registry holding only `specUReq`. -/
def regU : Registry := regAfter regEmpty specUReq

/-- A string argument descriptor with `minLength = 3` and no other
constraints. -/
def sMin3 : ArgDescr := mkArg { key := "s", type := "string", minLength := some 3 }

/-- An integer argument descriptor with `max = 10` and no other
constraints. -/
def iMax10 : ArgDescr := mkArg { key := "i", type := "integer", max := some 10 }

/-- A command-type argument descriptor constructed with
`allowAlias: false`. -/
def dCmd : ArgDescr := mkArg { key := "c", type := "command", allowAlias := some false }

/-- An integer argument descriptor with `choices = [5]` and no default. -/
def dChoice : ArgDescr := mkArg { key := "n", type := "integer", choices := some [.int 5] }

/-- C1 counterexample: with command `"c"` registered (one required
generic argument) and input `"c"`, tokenization and lookup succeed and
the argument is attempted (a failure message is emitted), yet `parse`
returns no object and the handler does not run — refuting the claim that
the assembled object is returned when a validation fails. -/
theorem claim_C1_counterexample :
    (regG "c").isSome = true ∧
    (srcParse regG "c" ctx0).result = none ∧
    (srcParse regG "c" ctx0).ran = false ∧
    (srcParse regG "c" ctx0).msgs.length = 1 :=
  ⟨rfl, rfl, rfl, rfl⟩

/-- C1 (amended): `parse` returns the assembled argument object exactly
when the command token is nonempty, the lookup succeeds, the permission
gate passes and every argument validation succeeds; the handler can only
have run when the object is returned (so a predicate-gate rejection still
returns the object, but a permission or validation failure returns
nothing). -/
theorem claim_C1_amended (reg : Registry) (command : String) (pass : Ctx) :
    ((srcParse reg command pass).result.isSome = srcParseSucceeds reg command pass) ∧
    (((srcParse reg command pass).ran && !(srcParse reg command pass).result.isSome) = false) := by
  unfold srcParse srcParseSucceeds
  by_cases h : srcCmdTok command = ""
  · simp [h]
  · simp only [h, if_false]
    cases hr : reg (srcCmdTok command) with
    | none => simp
    | some cmdSource =>
      dsimp only
      have hs := argsLoop_success pass reg
        (splitModel (srcRest command) cmdSource.arguments.length)
        cmdSource.arguments.enum [] (permOK pass cmdSource) (permMsgs pass cmdSource)
      constructor
      · rw [← hs]
        cases htv : (argsLoop pass reg (splitModel (srcRest command) cmdSource.arguments.length)
            cmdSource.arguments.enum [] (permOK pass cmdSource) (permMsgs pass cmdSource)).2.1 <;>
          simp [htv]
      · cases htv : (argsLoop pass reg (splitModel (srcRest command) cmdSource.arguments.length)
            cmdSource.arguments.enum [] (permOK pass cmdSource) (permMsgs pass cmdSource)).2.1 <;>
          simp [htv]

/-- C2: evaluation of every argument-type variant on an absent
(`undefined`) raw token.  The generic, string, integer, duration, command
and custom variants return absent as the claim states; the user and
subreddit variants instead stringify the absent super-result to
`"undefined"` and return it as a successful concrete value. -/
theorem claim_C2_absent_token_eval :
    getValue (mkArg { key := "u", type := "user" }) none ctx0 regEmpty = .ok (.str "undefined") ∧
    getValue (mkArg { key := "r", type := "subreddit" }) none ctx0 regEmpty = .ok (.str "undefined") ∧
    getValue (mkArg { key := "g", type := "generic" }) none ctx0 regEmpty = .ok .undef ∧
    getValue (mkArg { key := "s", type := "string" }) none ctx0 regEmpty = .ok .undef ∧
    getValue (mkArg { key := "i", type := "integer" }) none ctx0 regEmpty = .ok .undef ∧
    getValue (mkArg { key := "d", type := "duration" }) none ctx0 regEmpty = .ok .undef ∧
    getValue (mkArg { key := "c", type := "command" }) none ctx0 regEmpty = .ok .undef ∧
    getValue (mkArg { key := "k", type := "custom" }) none ctx0 regEmpty = .ok .undef :=
  ⟨rfl, rfl, rfl, rfl, rfl, rfl, rfl, rfl⟩

/-- C4: evaluation at the failing input.  With command `"c"` carrying one
required user-type argument and input `"c"` (no token for the argument),
the handler runs, no message is emitted, and the argument resolves to the
string `"undefined"` — no `ARGUMENT_REQUIRED` failure occurs, because the
user variant turned the absent token into a concrete value before the
required check.  For a generic required argument the required check does
fire with code `ARGUMENT_REQUIRED`, as the claim expects. -/
theorem claim_C4_required_user_eval :
    (srcParse regU "c" ctx0).ran = true ∧
    (srcParse regU "c" ctx0).msgs = [] ∧
    ((srcParse regU "c" ctx0).result.map (fun o => objGet o.vals "u")) =
      some (some (.str "undefined")) ∧
    errCode (getWithDefault (mkArg { key := "x", type := "generic", required := true })
      none ctx0 regEmpty) = some "ARGUMENT_REQUIRED" :=
  ⟨rfl, rfl, rfl, rfl⟩

/-- C5: exclusive bounds.  For a string argument with `minLength = 3`
every token of length exactly 3 fails as too short while every token of
length 4 passes; for an integer argument with `max = 10` the token
`"10"` fails as too high while `"9"` succeeds. -/
theorem claim_C5_exclusive_bounds :
    (∀ s : String, s.length = 3 →
      errCode (getValue sMin3 (some s) ctx0 regEmpty) = some "STRING_ARGUMENT_TOO_SHORT") ∧
    (∀ s : String, s.length = 4 →
      getValue sMin3 (some s) ctx0 regEmpty = .ok (.str s)) ∧
    errCode (getValue iMax10 (some "10") ctx0 regEmpty) = some "INTEGER_ARGUMENT_TOO_HIGH" ∧
    getValue iMax10 (some "9") ctx0 regEmpty = .ok (.int 9) := by
  refine ⟨?_, ?_, rfl, rfl⟩
  · intro s hlen
    simp [getValue, sMin3, mkArg, tyOf, stringGetValue, lenGE, hlen]
    rfl
  · intro s hlen
    simp [getValue, sMin3, mkArg, tyOf, stringGetValue, lenGE, hlen]

/-- C5 witness: the bound theorems applied at the concrete tokens
`"abc"` and `"abcd"`. -/
theorem claim_C5_witness :
    errCode (getValue sMin3 (some "abc") ctx0 regEmpty) = some "STRING_ARGUMENT_TOO_SHORT" ∧
    getValue sMin3 (some "abcd") ctx0 regEmpty = .ok (.str "abcd") :=
  ⟨claim_C5_exclusive_bounds.1 "abc" rfl, claim_C5_exclusive_bounds.2.1 "abcd" rfl⟩

/-- C6: evaluation at the failing input.  A command-type descriptor
constructed with `allowAlias: false` still has `allowAlias = true`
(`argument.allowAlias || true` is always true), so resolving the alias
token `"b"` (a filing whose `name` differs from its `originalName`)
succeeds and returns the record instead of failing; resolving a token
absent from the registry does fail, as the claim's second half states. -/
theorem claim_C6_alias_gate_eval :
    dCmd.allowAlias = true ∧
    getValue dCmd (some "b") ctx0 regAB = .ok (.cmdRef "b" "a") ∧
    errCode (getValue dCmd (some "zzz") ctx0 regAB) = some "COMMAND_ARGUMENT_NONEXISTENT" :=
  ⟨rfl, rfl, rfl⟩

/-- C8: evaluation at the failing input.  On the empty string the `src`
parse is a silent no-op (no result, no handler, no message), but the root
implementation's `"".match(...)` returns `null` and the immediate
`parts.length` read raises a `TypeError` — the claim's "raises no error"
fails on the root implementation. -/
theorem claim_C8_empty_input_eval (reg : Registry) (pass : Ctx) :
    rootParse reg "" pass = .error () ∧
    srcParse reg "" pass = ⟨none, false, []⟩ :=
  ⟨rfl, rfl⟩

/-- C10: when `choices` is configured and no (truthy) default applies, a
token rejected by the type-specific parse flows into the membership test
as the error object itself, is never a member, and is re-reported as
`ARGUMENT_UNAVAILABLE_CHOICE`, masking the type-specific code. -/
theorem claim_C10_choice_masks_error (a : ArgDescr) (v : Option String) (ctx : Ctx)
    (reg : Registry) (cs : List JSVal) (e : ArgErr)
    (hch : a.choices = some cs) (hdef : truthy a.default = false)
    (hval : getValue a v ctx reg = .error e) :
    getWithDefault a v ctx reg = .error (mkErr ctx "argument_unavailable_choice") := by
  unfold getWithDefault
  rw [hval, hch]
  simp [isUndef, defaulter, hdef, choicesInclude]

/-- C10 witness: an integer descriptor with `choices = [5]` and no
default, on the unparseable token `"x"`: the integer-invalid error is
masked by the unavailable-choice error. -/
theorem claim_C10_witness :
    getWithDefault dChoice (some "x") ctx0 regEmpty =
      .error (mkErr ctx0 "argument_unavailable_choice") :=
  claim_C10_choice_masks_error dChoice (some "x") ctx0 regEmpty [.int 5]
    (mkErr ctx0 "integer_argument_invalid") rfl rfl rfl

/-- C3: after `register` with a valid specification, the canonical name
and every alias are filed as records whose `name` equals the filing key
and whose `originalName` equals the canonical name; and the registry
invariant (every key yields a record whose `name` equals it) is
preserved, so it holds after any sequence of register calls. -/
theorem claim_C3_register_invariant (reg : Registry) (cmd : CmdSpec) (n : String)
    (hn : findName cmd = some n) (hal : ∀ a ∈ cmd.aliases.getD [], a ≠ "") :
    (∀ k ∈ cmd.aliases.getD [] ++ [n],
      ∃ c, regAfter reg cmd k = some c ∧ c.name = k ∧ c.originalName = n) ∧
    (RegNameInv reg → RegNameInv (regAfter reg cmd)) := by
  have hne := findName_ne cmd n hn
  have hkne : ∀ k ∈ cmd.aliases.getD [] ++ [n], k ≠ "" := by
    intro k hk
    rcases List.mem_append.mp hk with h1 | h2
    · exact hal k h1
    · simp at h2; subst h2; exact hne
  have hreg : regAfter reg cmd =
      (regLoop (cmd.aliases.getD [] ++ [n]) n (cmd.aliases.getD [] ++ [n]) reg cmd).1 := by
    simp [regAfter, registerSingle, hn]
  have hget := regLoop_get (cmd.aliases.getD [] ++ [n]) n cmd
    (cmd.aliases.getD [] ++ [n]) reg cmd (fun _ => rfl)
  constructor
  · intro k hk
    refine ⟨Command.ofSpec (stepSpec (cmd.aliases.getD [] ++ [n]) n cmd k), ?_, ?_, ?_⟩
    · rw [hreg, hget k, if_pos hk]
    · exact ofSpec_step_name _ _ _ _ (hkne k hk)
    · exact ofSpec_step_originalName _ _ _ _ hne
  · intro hinv k c hc
    rw [hreg, hget k] at hc
    by_cases hk : k ∈ cmd.aliases.getD [] ++ [n]
    · rw [if_pos hk] at hc
      obtain rfl : c = Command.ofSpec (stepSpec (cmd.aliases.getD [] ++ [n]) n cmd k) :=
        (Option.some.inj hc).symm
      exact ofSpec_step_name _ _ _ _ (hkne k hk)
    · rw [if_neg hk] at hc
      exact hinv k c hc

/-- C3 witness: registering canonical `"a"` with alias `"b"` into the
empty registry files `"b"` as a record with `name = "b"` and
`originalName = "a"`. -/
theorem claim_C3_witness :
    ∃ c, regAfter regEmpty demoSpec3 "b" = some c ∧ c.name = "b" ∧ c.originalName = "a" :=
  (claim_C3_register_invariant regEmpty demoSpec3 "a" rfl (by decide)).1 "b" (by decide)

/-- C7: `deregister(n, true)` after registering a command with canonical
name `n` removes the filing under `n` and under every alias: every
subsequent lookup of those keys returns absent. -/
theorem claim_C7_deregister_all (reg : Registry) (cmd : CmdSpec) (n : String)
    (hn : findName cmd = some n) :
    ∀ k ∈ cmd.aliases.getD [] ++ [n], deregister (regAfter reg cmd) n true k = none := by
  have hne := findName_ne cmd n hn
  have hreg : regAfter reg cmd =
      (regLoop (cmd.aliases.getD [] ++ [n]) n (cmd.aliases.getD [] ++ [n]) reg cmd).1 := by
    simp [regAfter, registerSingle, hn]
  have hget := regLoop_get (cmd.aliases.getD [] ++ [n]) n cmd
    (cmd.aliases.getD [] ++ [n]) reg cmd (fun _ => rfl)
  intro k hk
  simp only [deregister, if_true, regFilter]
  rw [hreg, hget k, if_pos hk]
  simp [ofSpec_step_originalName _ _ _ _ hne]

/-- C7 witness: after registering canonical `"a"` with alias `"b"`,
`deregister("a", true)` leaves both `"a"` and `"b"` unresolvable. -/
theorem claim_C7_witness :
    deregister (regAfter regEmpty demoSpec3) "a" true "b" = none ∧
    deregister (regAfter regEmpty demoSpec3) "a" true "a" = none :=
  ⟨claim_C7_deregister_all regEmpty demoSpec3 "a" rfl "b" (by decide),
   claim_C7_deregister_all regEmpty demoSpec3 "a" rfl "a" (by decide)⟩

/-- C9 counterexample: registering canonical `"a"` with declared alias
`"b"`, the caller's object ends with `aliases = ["b"]`, which does not
include the canonical name — refuting the claim that the final aliases
array includes the canonical name while excluding the last alias
processed. -/
theorem claim_C9_counterexample :
    (specAfter regEmpty demoSpec3).aliases = some ["b"] ∧
    "a" ∉ (["b"] : List String) :=
  ⟨rfl, by decide⟩

/-- C9 (amended): `register` mutates the caller's specification: the
canonical name is pushed onto the caller's aliases array (final contents:
declared aliases then the canonical name), and `name`, `originalName`
and `aliases` are overwritten once per alias.  Because the canonical name
is pushed last, it is the last alias processed, so after return the
spec's `name` and `originalName` both equal the canonical name and its
`aliases` field is a fresh array holding the pushed list minus every
occurrence of the canonical name. -/
theorem claim_C9_register_mutation (reg : Registry) (cmd : CmdSpec) (n : String)
    (hn : findName cmd = some n) :
    aliasArrAfter reg cmd = cmd.aliases.getD [] ++ [n] ∧
    (specAfter reg cmd).name = some n ∧
    (specAfter reg cmd).originalName = some n ∧
    (specAfter reg cmd).aliases =
      some ((cmd.aliases.getD [] ++ [n]).filter (fun m => m != n)) := by
  have hspec : specAfter reg cmd = stepSpec (cmd.aliases.getD [] ++ [n]) n cmd n := by
    simp only [specAfter, registerSingle, hn]
    exact regLoop_spec_last (cmd.aliases.getD [] ++ [n]) n (cmd.aliases.getD []) n reg cmd
  refine ⟨?_, ?_, ?_, ?_⟩
  · simp [aliasArrAfter, registerSingle, hn]
  · rw [hspec]; rfl
  · rw [hspec]; rfl
  · rw [hspec]; rfl

/-- C9 witness: the mutation theorem at canonical `"a"` with declared
alias `"b"`. -/
theorem claim_C9_witness :
    aliasArrAfter regEmpty demoSpec3 = ["b", "a"] ∧
    (specAfter regEmpty demoSpec3).name = some "a" ∧
    (specAfter regEmpty demoSpec3).originalName = some "a" ∧
    (specAfter regEmpty demoSpec3).aliases = some ["b"] := by
  have h := claim_C9_register_mutation regEmpty demoSpec3 "a" rfl
  exact ⟨h.1, h.2.1, h.2.2.1, h.2.2.2⟩
